import Mathlib

/-!
Shallow embedding of the Stock-Screener application (src/app.py) and proofs
about its moving-average analysis pipeline.

Modelling conventions:
* Prices, volumes and percentages are rational numbers; Python's binary
  floats are modelled exactly, with `round(x, 2)` modelled as exact
  round-half-to-even at two decimal places.
* The division `(current_price - current_ma) / current_ma` is performed on
  plain Python floats in the source, so a zero divisor raises
  ZeroDivisionError; we model the raised exception as a `Sum.inl` message.
* The division in `price_change` is performed on numpy float64 scalars
  (`hist['Close'].iloc[0]` is a numpy scalar), which does not raise on a
  zero divisor but yields an infinity or NaN; we model that with `NpFloat`.
* The per-symbol try/except of `get_stocks_below_ma` is modelled by
  `processTicker` returning either a caught error message (`Sum.inl`) or an
  optional row (`Sum.inr`); the fetch itself is an input
  (`Except String History`) since the network is outside the program.
-/

set_option allowUnsafeReducibility true in
attribute [semireducible] Rat.mul Rat.add Rat.sub Rat.inv

/-- Nearest integer to a rational, ties going to the even integer
(the rounding used by Python's builtin `round`). -/
def roundHalfEven (q : ℚ) : ℤ :=
  if q - (Rat.floor q : ℚ) < 1/2 then Rat.floor q
  else if 1/2 < q - (Rat.floor q : ℚ) then Rat.floor q + 1
  else if Even (Rat.floor q) then Rat.floor q else Rat.floor q + 1

/-- Python's `round(q, 2)`: round to two decimal places, ties to even. -/
def round2 (q : ℚ) : ℚ := ((roundHalfEven (q * 100) : ℤ) : ℚ) / 100

/-- Result of a numpy float64 arithmetic operation: either a finite value or
one of the non-finite floats numpy produces instead of raising. -/
inductive NpFloat where
  | fin (q : ℚ)
  | posInf
  | negInf
  | nan
  deriving DecidableEq

/-- Whether a numpy value is finite. -/
def NpFloat.isFinite : NpFloat → Bool
  | .fin _ => true
  | _ => false

/-- `((cp - first) / first) * 100` computed on numpy float64 scalars:
division by zero yields a signed infinity (or NaN for 0/0) instead of
raising, matching `price_change` in `get_stocks_below_ma`. -/
def priceChangeNp (cp first : ℚ) : NpFloat :=
  if first = 0 then
    if 0 < cp then NpFloat.posInf
    else if cp < 0 then NpFloat.negInf
    else NpFloat.nan
  else NpFloat.fin ((cp - first) / first * 100)

/-- Python's `round(x, 2)` on a possibly non-finite numpy value: `round`
returns infinities and NaN unchanged. -/
def round2Np : NpFloat → NpFloat
  | .fin q => .fin (round2 q)
  | x => x

/-- One row of the fetched daily history (only the columns the program
reads: Close and Volume). -/
structure PricePoint where
  close : ℚ
  volume : ℚ
  deriving DecidableEq

/-- A fetched daily history, chronological order. -/
abbrev History := List PricePoint

/-- The Close column of a history. -/
def closes (h : History) : List ℚ := h.map PricePoint.close

/-- `hist['Close'].iloc[-1]` (the guard `len(hist) > ma_period` makes the
history nonempty wherever this is read, so the default is never hit). -/
def lastClose (h : History) : ℚ := (closes h).getLast?.getD 0

/-- `hist['Close'].iloc[0]`. -/
def firstClose (h : History) : ℚ := (closes h).head?.getD 0

/-- `hist['Volume'].iloc[-1]`. -/
def lastVolume (h : History) : ℚ := (h.map PricePoint.volume).getLast?.getD 0

/-- `hist['Close'].rolling(window=P).mean().iloc[-1]`: the arithmetic mean
of the last `P` closes (well defined whenever `P ≤ len` and `1 ≤ P`). -/
def trailingMean (h : History) (P : ℕ) : ℚ :=
  (((closes h).drop (h.length - P)).sum) / (P : ℚ)

/-- Remove every occurrence of the three-character pattern `.NS`, scanning
left to right (the behaviour of `ticker.replace('.NS', '')`). -/
def removeNS : List Char → List Char
  | [] => []
  | '.' :: 'N' :: 'S' :: rest => removeNS rest
  | c :: cs => c :: removeNS cs

/-- `ticker.replace('.NS', '')`. -/
def stripNS (s : String) : String := String.mk (removeNS s.data)

/-- One row appended to `results_list` in `get_stocks_below_ma`.  Field
order: Symbol, Name, Current_Price, MA_200, Below_MA, Distance_From_MA_%,
Volume, Price_Change_%. -/
structure StockMetric where
  Symbol : String
  Name : String
  Current_Price : ℚ
  MA_200 : ℚ
  Below_MA : Bool
  Distance_From_MA : ℚ
  Volume : ℚ
  Price_Change : NpFloat
  deriving DecidableEq

/-- The dictionary literal appended to `results_list` for a ticker whose
history passed the length check and whose computation raised no exception. -/
def mkMetric (ticker : String) (longName : Option String) (hist : History)
    (P : ℕ) : StockMetric :=
  ⟨stripNS ticker,
   longName.getD (stripNS ticker),
   round2 (lastClose hist),
   round2 (trailingMean hist P),
   decide (lastClose hist < trailingMean hist P),
   round2 ((lastClose hist - trailingMean hist P) / trailingMean hist P * 100),
   lastVolume hist,
   round2Np (priceChangeNp (lastClose hist) (firstClose hist))⟩

/-- Body of the try-block of the per-ticker loop in `get_stocks_below_ma`,
given a successfully fetched history.  `Sum.inl msg` models a raised and
caught exception (`current_ma` is a plain Python float, so
`... / current_ma` raises ZeroDivisionError when it is zero);
`Sum.inr none` models the silent skip when the length check fails;
`Sum.inr (some m)` models an appended row. -/
def processHistory (ticker : String) (longName : Option String)
    (hist : History) (ma_period : ℕ) : Sum String (Option StockMetric) :=
  if ma_period < hist.length then
    if trailingMean hist ma_period = 0 then Sum.inl "float division by zero"
    else Sum.inr (some (mkMetric ticker longName hist ma_period))
  else Sum.inr none

/-- Per-ticker input to the analysis: the ticker string, the optional
`longName` from `stock.info`, and the outcome of the `stock.history` fetch
(`Except.error` models a raised network/provider exception). -/
structure TickerInput where
  ticker : String
  longName : Option String
  fetchResult : Except String History

/-- One iteration of the per-ticker loop: a fetch exception is caught like
any other exception raised inside the try-block. -/
def processTicker (t : TickerInput) (ma_period : ℕ) :
    Sum String (Option StockMetric) :=
  match t.fetchResult with
  | Except.error e => Sum.inl e
  | Except.ok hist => processHistory t.ticker t.longName hist ma_period

/-- The message written by the except-branch:
`f"Error processing {ticker}: {str(e)}"`. -/
def errorLine (t : TickerInput) (e : String) : String :=
  "Error processing " ++ t.ticker ++ ": " ++ e

/-- The row (if any) a ticker contributes to `results_list`. -/
def rowOf (t : TickerInput) (ma_period : ℕ) : Option StockMetric :=
  match processTicker t ma_period with
  | Sum.inr (some m) => some m
  | _ => none

/-- The error message (if any) a ticker causes to be written. -/
def msgOf (t : TickerInput) (ma_period : ℕ) : Option String :=
  match processTicker t ma_period with
  | Sum.inl e => some (errorLine t e)
  | _ => none

/-- `results_list` at the end of the loop of `get_stocks_below_ma`
(insertion order = input ticker order). -/
def resultRows (tickers : List TickerInput) (ma_period : ℕ) :
    List StockMetric :=
  tickers.filterMap (fun t => rowOf t ma_period)

/-- The error messages written during the loop, in order. -/
def errorMessages (tickers : List TickerInput) (ma_period : ℕ) :
    List String :=
  tickers.filterMap (fun t => msgOf t ma_period)

/-- `get_stocks_below_ma`: the returned DataFrame rows together with the
error messages surfaced inline. -/
def get_stocks_below_ma (tickers : List TickerInput) (ma_period : ℕ) :
    List StockMetric × List String :=
  (resultRows tickers ma_period, errorMessages tickers ma_period)

/-- The boolean comparison used by `sort_values('Distance_From_MA_%')`. -/
def distLe (a b : StockMetric) : Bool :=
  decide (a.Distance_From_MA ≤ b.Distance_From_MA)

/-- The filter `analysis_df['Distance_From_MA_%'] >= 0`. -/
def isAbove (m : StockMetric) : Bool := decide (0 ≤ m.Distance_From_MA)

/-- The filter `analysis_df['Distance_From_MA_%'] < 0`. -/
def isBelow (m : StockMetric) : Bool := decide (m.Distance_From_MA < 0)

/-- `above_df`: rows with nonnegative distance, sorted ascending. -/
def aboveSorted (df : List StockMetric) : List StockMetric :=
  (df.filter isAbove).mergeSort distLe

/-- `below_df`: rows with negative distance, sorted ascending. -/
def belowSorted (df : List StockMetric) : List StockMetric :=
  (df.filter isBelow).mergeSort distLe

/-- `range(0, n, k)` for `1 ≤ k`: the chunk start indices. -/
def chunkStarts (k n : ℕ) : List ℕ :=
  (List.range ((n + k - 1) / k)).map (fun j => j * k)

/-- The chunking loop `for i in range(0, len(df), k): chunk = df.iloc[i:i+k]`. -/
def chunksOf (k : ℕ) (l : List StockMetric) : List (List StockMetric) :=
  (chunkStarts k l.length).map (fun i => (l.drop i).take k)

/-- The list of above-MA chart groups, in chart order. -/
def aboveGroups (df : List StockMetric) (k : ℕ) : List (List StockMetric) :=
  chunksOf k (aboveSorted df)

/-- The list of below-MA chart groups, in chart order. -/
def belowGroups (df : List StockMetric) (k : ℕ) : List (List StockMetric) :=
  chunksOf k (belowSorted df)

/-- Python's `f'{q:.1f}'`: fixed-point formatting with one decimal place. -/
def formatFixed1 (q : ℚ) : String :=
  let n : ℤ := roundHalfEven (q * 10)
  let sign : String := if n < 0 then "-" else ""
  sign ++ toString (n.natAbs / 10) ++ "." ++ toString (n.natAbs % 10)

/-- The bar label `f'+{height:.1f}%'` used in the above-MA charts. -/
def aboveLabel (m : StockMetric) : String :=
  "+" ++ formatFixed1 m.Distance_From_MA ++ "%"

/-- The bar label `f'{height:.1f}%'` used in the below-MA charts. -/
def belowLabel (m : StockMetric) : String :=
  formatFixed1 m.Distance_From_MA ++ "%"

/-- What `main` renders after the fetch loop. -/
inductive MainOutcome where
  | noData (message : String)
  | rendered (total above below : ℕ)
      (aboveCharts belowCharts : List (List StockMetric))
      (tableRows : List StockMetric)
  deriving DecidableEq

/-- The `st.error` text of the empty-result branch of `main`. -/
def noDataMessage : String :=
  "No data available. Please check your internet connection or try again later."

/-- The tail of `main` after `get_stocks_below_ma` returns: on an empty
DataFrame it shows the error and returns before any metric, chart or table;
otherwise it renders the three summary counts, the two chart-group
sequences and the table rows. -/
def mainModel (tickers : List TickerInput) (ma_period stocks_per_page : ℕ) :
    MainOutcome :=
  let df := resultRows tickers ma_period
  if df.isEmpty then MainOutcome.noData noDataMessage
  else
    MainOutcome.rendered df.length (df.filter isAbove).length
      (df.filter isBelow).length
      (aboveGroups df stocks_per_page) (belowGroups df stocks_per_page) df

/-- `create_charts`: the two ordered sequences of chart groups. -/
def create_charts (df : List StockMetric) (stocks_per_chart : ℕ) :
    List (List StockMetric) × List (List StockMetric) :=
  (aboveGroups df stocks_per_chart, belowGroups df stocks_per_chart)

/-- `get_nifty_tickers`: the fixed static symbol list. -/
def get_nifty_tickers : List String :=
  ["RELIANCE.NS", "TCS.NS", "HDFCBANK.NS", "INFY.NS", "ICICIBANK.NS",
   "HINDUNILVR.NS", "ITC.NS", "SBIN.NS", "BHARTIARTL.NS", "KOTAKBANK.NS",
   "LT.NS", "AXISBANK.NS", "ASIANPAINT.NS", "MARUTI.NS", "WIPRO.NS",
   "BAJFINANCE.NS", "TITAN.NS", "ULTRACEMCO.NS", "SUNPHARMA.NS", "TATAMOTORS.NS",
   "NTPC.NS", "POWERGRID.NS", "M&M.NS", "HCLTECH.NS", "ADANIENT.NS",
   "BAJAJFINSV.NS", "ONGC.NS", "COALINDIA.NS", "TATASTEEL.NS", "HINDALCO.NS"]

/-- The ordering of rows the chart grouper sorts by. -/
def distRel (a b : StockMetric) : Prop :=
  a.Distance_From_MA ≤ b.Distance_From_MA

/-- A ticker whose fetch succeeds with enough history and a nonzero trailing
mean, so its try-block runs to completion and appends a row. -/
def goodInput (t : TickerInput) (P : ℕ) : Prop :=
  ∃ h, t.fetchResult = Except.ok h ∧ P < h.length ∧ trailingMean h P ≠ 0

/-! Helper lemmas about rounding. -/

lemma roundHalfEven_nonneg {q : ℚ} (hq : 0 ≤ q) : 0 ≤ roundHalfEven q := by
  have hf : 0 ≤ Rat.floor q := Rat.le_floor.mpr (by exact_mod_cast hq)
  unfold roundHalfEven
  split
  · exact hf
  · split
    · omega
    · split
      · exact hf
      · omega

lemma round2_nonneg {q : ℚ} (hq : 0 ≤ q) : 0 ≤ round2 q := by
  unfold round2
  have h : 0 ≤ roundHalfEven (q * 100) := roundHalfEven_nonneg (by positivity)
  apply div_nonneg _ (by norm_num)
  exact_mod_cast h

lemma neg_of_round2_neg {q : ℚ} (h : round2 q < 0) : q < 0 := by
  by_contra hq
  push_neg at hq
  exact absurd (round2_nonneg hq) (not_le.mpr h)

/-! Helper lemmas about the per-symbol computation. -/

lemma processHistory_of_short {t : String} {ln : Option String} {hist : History}
    {P : ℕ} (h : hist.length ≤ P) :
    processHistory t ln hist P = Sum.inr none := by
  simp only [processHistory, if_neg (by omega : ¬ P < hist.length)]

lemma processHistory_of_zeroMA {t : String} {ln : Option String} {hist : History}
    {P : ℕ} (h1 : P < hist.length) (h2 : trailingMean hist P = 0) :
    processHistory t ln hist P = Sum.inl "float division by zero" := by
  simp only [processHistory, if_pos h1, if_pos h2]

lemma processHistory_of_good {t : String} {ln : Option String} {hist : History}
    {P : ℕ} (h1 : P < hist.length) (h2 : trailingMean hist P ≠ 0) :
    processHistory t ln hist P = Sum.inr (some (mkMetric t ln hist P)) := by
  simp only [processHistory, if_pos h1, if_neg h2]

lemma processHistory_inr_some {t : String} {ln : Option String} {hist : History}
    {P : ℕ} {m : StockMetric}
    (h : processHistory t ln hist P = Sum.inr (some m)) :
    P < hist.length ∧ trailingMean hist P ≠ 0 ∧ m = mkMetric t ln hist P := by
  by_cases h1 : P < hist.length
  · by_cases h2 : trailingMean hist P = 0
    · rw [processHistory_of_zeroMA h1 h2] at h
      simp at h
    · rw [processHistory_of_good h1 h2] at h
      simp at h
      exact ⟨h1, h2, h.symm⟩
  · rw [processHistory_of_short (by omega)] at h
    simp at h

lemma rowOf_of_error {t : TickerInput} {P : ℕ} {e : String}
    (h : t.fetchResult = Except.error e) :
    rowOf t P = none ∧ msgOf t P = some (errorLine t e) := by
  simp [rowOf, msgOf, processTicker, h]

lemma rowOf_of_good {t : TickerInput} {P : ℕ} {hist : History}
    (h : t.fetchResult = Except.ok hist) (h1 : P < hist.length)
    (h2 : trailingMean hist P ≠ 0) :
    rowOf t P = some (mkMetric t.ticker t.longName hist P) ∧ msgOf t P = none := by
  simp [rowOf, msgOf, processTicker, h, processHistory_of_good h1 h2]

lemma rowOf_of_short {t : TickerInput} {P : ℕ} {hist : History}
    (h : t.fetchResult = Except.ok hist) (h1 : hist.length ≤ P) :
    rowOf t P = none ∧ msgOf t P = none := by
  simp [rowOf, msgOf, processTicker, h, processHistory_of_short h1]

lemma resultRows_all_good {ts : List TickerInput} {P : ℕ}
    (hg : ∀ t ∈ ts, goodInput t P) :
    (resultRows ts P).length = ts.length ∧ errorMessages ts P = [] := by
  induction ts with
  | nil => simp [resultRows, errorMessages]
  | cons t ts ih =>
    obtain ⟨hh, hf, h1, h2⟩ := hg t (List.mem_cons_self t ts)
    obtain ⟨hr, hm⟩ := rowOf_of_good hf h1 h2
    obtain ⟨ihr, ihm⟩ := ih (fun u hu => hg u (List.mem_cons_of_mem _ hu))
    constructor
    · simp [resultRows, List.filterMap_cons, hr] at ihr ⊢
      simpa [resultRows] using ihr
    · simp [errorMessages, List.filterMap_cons, hm] at ihm ⊢
      simpa [errorMessages] using ihm

/-! Helper lemmas about the chunking loop. -/

lemma chunksOf_nil (k : ℕ) : chunksOf k [] = [] := by
  unfold chunksOf chunkStarts
  cases k with
  | zero => rfl
  | succ k =>
    have h : (List.length ([] : List StockMetric) + (k + 1) - 1) / (k + 1) = 0 :=
      Nat.div_eq_of_lt (by simp)
    rw [h]
    rfl

lemma chunksOf_cons {k : ℕ} (hk : k ≠ 0) {l : List StockMetric} (hl : l ≠ []) :
    chunksOf k l = l.take k :: chunksOf k (l.drop k) := by
  have hn : 1 ≤ l.length := List.length_pos.mpr hl
  have hk0 : 0 < k := Nat.pos_of_ne_zero hk
  have h1 : (l.length + k - 1) / k = (l.length - 1) / k + 1 := by
    have e : l.length + k - 1 = l.length - 1 + k := by omega
    rw [e, Nat.add_div_right _ hk0]
  have h2 : ((l.drop k).length + k - 1) / k = (l.length - 1) / k := by
    rw [List.length_drop]
    rcases Nat.le_total k l.length with h | h
    · have e : l.length - k + k - 1 = l.length - 1 := by omega
      rw [e]
    · have e : l.length - k = 0 := by omega
      rw [e, Nat.div_eq_of_lt (by omega), Nat.div_eq_of_lt (by omega)]
  unfold chunksOf chunkStarts
  rw [h1, h2, List.range_succ_eq_map]
  simp only [List.map_cons, List.map_map, Nat.zero_mul, List.drop_zero]
  congr 1
  apply List.map_congr_left
  intro j hj
  simp only [Function.comp]
  rw [List.drop_drop, Nat.succ_mul, Nat.add_comm (j * k) k]

lemma chunksOf_eq_nil_iff {k : ℕ} (hk : k ≠ 0) {l : List StockMetric} :
    chunksOf k l = [] ↔ l = [] := by
  constructor
  · intro h
    by_contra hl
    rw [chunksOf_cons hk hl] at h
    simp at h
  · intro h
    rw [h]
    exact chunksOf_nil k

lemma chunksOf_flatten {k : ℕ} (hk : k ≠ 0) (l : List StockMetric) :
    (chunksOf k l).flatten = l := by
  by_cases hl : l = []
  · rw [hl, chunksOf_nil]
    rfl
  · rw [chunksOf_cons hk hl, List.flatten_cons, chunksOf_flatten hk (l.drop k)]
    exact List.take_append_drop k l
termination_by l.length
decreasing_by
  simp only [List.length_drop]
  have := List.length_pos.mpr hl
  omega

lemma chunksOf_length {k : ℕ} (l : List StockMetric) :
    (chunksOf k l).length = (l.length + k - 1) / k := by
  simp [chunksOf, chunkStarts]

lemma chunksOf_dropLast_length {k : ℕ} (hk : k ≠ 0) {l : List StockMetric}
    {c : List StockMetric} (hc : c ∈ (chunksOf k l).dropLast) : c.length = k := by
  by_cases hl : l = []
  · rw [hl, chunksOf_nil] at hc
    simp at hc
  · rw [chunksOf_cons hk hl] at hc
    rcases hrest : chunksOf k (l.drop k) with _ | ⟨r, rs⟩
    · rw [hrest] at hc
      simp at hc
    · rw [hrest] at hc
      have hdrop : l.drop k ≠ [] := by
        intro h0
        rw [h0, chunksOf_nil] at hrest
        simp at hrest
      have hklen : k < l.length := by
        have h1 : 0 < (l.drop k).length := List.length_pos.mpr hdrop
        rw [List.length_drop] at h1
        omega
      rw [List.dropLast_cons₂] at hc
      rcases List.mem_cons.mp hc with rfl | hc2
      · rw [List.length_take]
        omega
      · exact chunksOf_dropLast_length hk (hrest ▸ hc2)
termination_by l.length
decreasing_by
  simp only [List.length_drop]
  have := List.length_pos.mpr hl
  omega

lemma chunksOf_getLast_length {k : ℕ} (hk : k ≠ 0) {l : List StockMetric}
    {c : List StockMetric} (hc : (chunksOf k l).getLast? = some c) :
    c.length = if l.length % k = 0 then k else l.length % k := by
  by_cases hl : l = []
  · rw [hl, chunksOf_nil] at hc
    simp at hc
  · rw [chunksOf_cons hk hl] at hc
    have hn : 1 ≤ l.length := List.length_pos.mpr hl
    rcases hrest : chunksOf k (l.drop k) with _ | ⟨r, rs⟩
    · rw [hrest] at hc
      simp only [List.getLast?_singleton, Option.some_inj] at hc
      have hdrop : l.drop k = [] := by
        rw [← chunksOf_eq_nil_iff hk]
        exact hrest
      have hlen : l.length ≤ k := by
        have := List.drop_eq_nil_iff.mp hdrop
        omega
      rw [← hc, List.length_take]
      rcases Nat.lt_or_ge l.length k with h | h
      · rw [if_neg (by rw [Nat.mod_eq_of_lt h]; omega), Nat.mod_eq_of_lt h]
        omega
      · have he : l.length = k := by omega
        rw [he, Nat.mod_self, if_pos rfl]
        omega
    · rw [hrest] at hc
      have hdrop : l.drop k ≠ [] := by
        intro h0
        rw [h0, chunksOf_nil] at hrest
        simp at hrest
      have hklen : k ≤ l.length := by
        have h1 : 0 < (l.drop k).length := List.length_pos.mpr hdrop
        rw [List.length_drop] at h1
        omega
      rw [List.getLast?_cons_cons] at hc
      have ih := chunksOf_getLast_length hk
        (show (chunksOf k (l.drop k)).getLast? = some c by rw [hrest]; exact hc)
      rw [List.length_drop] at ih
      rw [Nat.mod_eq_sub_mod hklen]
      exact ih
termination_by l.length
decreasing_by
  simp only [List.length_drop]
  have := List.length_pos.mpr hl
  omega

/-! Helper lemmas about sorting and partitioning. -/

lemma distLe_trans : ∀ a b c : StockMetric,
    distLe a b = true → distLe b c = true → distLe a c = true := by
  intro a b c hab hbc
  simp only [distLe, decide_eq_true_eq] at *
  exact le_trans hab hbc

lemma distLe_total : ∀ a b : StockMetric, (distLe a b || distLe b a) = true := by
  intro a b
  simp only [distLe, Bool.or_eq_true, decide_eq_true_eq]
  exact le_total _ _

lemma pairwise_mergeSort_distRel (l : List StockMetric) :
    List.Pairwise distRel (l.mergeSort distLe) := by
  have h := List.sorted_mergeSort distLe_trans distLe_total l
  exact h.imp (by intro a b hab; simpa [distLe, distRel] using hab)

lemma aboveSorted_pairwise (df : List StockMetric) :
    List.Pairwise distRel (aboveSorted df) :=
  pairwise_mergeSort_distRel _

lemma belowSorted_pairwise (df : List StockMetric) :
    List.Pairwise distRel (belowSorted df) :=
  pairwise_mergeSort_distRel _

lemma not_isAbove_eq_isBelow : ∀ m : StockMetric, (!isAbove m) = isBelow m := by
  intro m
  simp only [isAbove, isBelow, ← decide_not]
  exact decide_eq_decide.mpr not_le

lemma chunks_pairwise_of_pairwise {k : ℕ} (hk : k ≠ 0) {s : List StockMetric}
    (hs : List.Pairwise distRel s) :
    (∀ c ∈ chunksOf k s, List.Pairwise distRel c) ∧
      List.Pairwise (fun c₁ c₂ => ∀ x ∈ c₁, ∀ y ∈ c₂, distRel x y)
        (chunksOf k s) := by
  have hflat : List.Pairwise distRel ((chunksOf k s).flatten) := by
    rw [chunksOf_flatten hk]
    exact hs
  exact List.pairwise_flatten.mp hflat

/-! Concrete inputs used by witnesses and counterexamples. -/

/-- A short rising history: closes 10, 20, 30. -/
def histW : History := [⟨10, 5⟩, ⟨20, 6⟩, ⟨30, 7⟩]

/-- A falling history: closes 30, 20, 10. -/
def histDown : History := [⟨30, 1⟩, ⟨20, 2⟩, ⟨10, 3⟩]

/-- A history of three zero closes: its trailing mean is zero. -/
def histZeros : History := List.replicate 3 ⟨0, 1⟩

/-- A history whose first close is zero but whose trailing mean is not. -/
def histZeroFirst : History := [⟨0, 1⟩, ⟨10, 2⟩, ⟨20, 3⟩]

/-- A history so close to its moving average that the distance rounds to 0:
closes 100, 100.001, 99.999; the trailing-2 mean is 100 and the last close
99.999, a raw distance of -0.001 percent. -/
def histC2 : History := [⟨100, 1⟩, ⟨100001/1000, 1⟩, ⟨99999/1000, 1⟩]

/-- A one-point history (insufficient for any period). -/
def histShort : History := [⟨5, 1⟩]

/-- The 210-point scenario history of the spec: last close 100,
trailing-200 mean 95. -/
def hist210 : History :=
  List.replicate 10 ⟨100, 1⟩ ++ List.replicate 199 ⟨18900/199, 1⟩ ++ [⟨100, 1⟩]

/-- The row the 210-point scenario produces. -/
def m210x : StockMetric := mkMetric "ADANIENT.NS" none hist210 200

/-- A ticker that fetches `histW` successfully. -/
def tGoodA : TickerInput :=
  ⟨"RELIANCE.NS", some "Reliance Industries Limited", Except.ok histW⟩

/-- A second ticker that fetches `histW` successfully. -/
def tGoodB : TickerInput := ⟨"INFY.NS", none, Except.ok histW⟩

/-- A ticker whose fetch raises a network error. -/
def tBad : TickerInput := ⟨"TCS.NS", none, Except.error "connection failed"⟩

/-- A ticker whose fetched history is too short for the period. -/
def tShort : TickerInput := ⟨"ITC.NS", none, Except.ok histShort⟩

/-- A row that lands in the above partition (distance +20). -/
def mAbove : StockMetric := mkMetric "TITAN.NS" none histW 2

/-- A row that lands in the below partition (distance -33.33). -/
def mBelowX : StockMetric := mkMetric "LT.NS" none histDown 2

/-! The claims. -/

/-- C1, amended: a produced row implies the history length strictly exceeds
the period, and a history of length at most the period is silently skipped
(no row and no message); but length > P alone does not force a row — when
the trailing mean is zero the distance division raises ZeroDivisionError,
which is caught with an error message, so the claimed biconditional and the
claimed absence of errors hold only under the extra hypothesis that the
trailing mean is nonzero. -/
theorem c1_amended (ti : TickerInput) (hist : History) (P : ℕ)
    (hf : ti.fetchResult = Except.ok hist) :
    (hist.length ≤ P → rowOf ti P = none ∧ msgOf ti P = none) ∧
    (P < hist.length → trailingMean hist P ≠ 0 →
      rowOf ti P = some (mkMetric ti.ticker ti.longName hist P)) ∧
    (∀ m, rowOf ti P = some m → P < hist.length) := by
  refine ⟨fun h => rowOf_of_short hf h, fun h1 h2 => (rowOf_of_good hf h1 h2).1, ?_⟩
  intro m hm
  have hpt : processTicker ti P = processHistory ti.ticker ti.longName hist P := by
    unfold processTicker
    rw [hf]
  unfold rowOf at hm
  rw [hpt] at hm
  rcases hp : processHistory ti.ticker ti.longName hist P with e | om
  · rw [hp] at hm
    simp at hm
  · rw [hp] at hm
    rcases om with _ | m2
    · simp at hm
    · exact (processHistory_inr_some hp).1

/-- C1, witness: with a 3-point history, period 5 silently yields nothing,
and period 2 (trailing mean 25) yields a row. -/
theorem c1_witness :
    (rowOf tGoodA 5 = none ∧ msgOf tGoodA 5 = none) ∧
    rowOf tGoodA 2 = some (mkMetric tGoodA.ticker tGoodA.longName histW 2) :=
  ⟨(c1_amended tGoodA histW 5 rfl).1 (by decide),
   (c1_amended tGoodA histW 2 rfl).2.1 (by decide) (by decide)⟩

/-- C1, counterexample: a history of 3 zero closes has length > 2, yet no
row is produced and an error message is emitted — refuting both the
"if" direction of the claimed biconditional and the claim that symbols
without a row are always silent. -/
theorem c1_counterexample :
    2 < histZeros.length ∧
    processHistory "HINDALCO.NS" none histZeros 2 =
      Sum.inl "float division by zero" ∧
    resultRows [⟨"HINDALCO.NS", none, Except.ok histZeros⟩] 2 = [] ∧
    errorMessages [⟨"HINDALCO.NS", none, Except.ok histZeros⟩] 2 =
      ["Error processing HINDALCO.NS: float division by zero"] := by
  decide

/-- C2, amended: for a produced row with a positive trailing mean, the
stored Below_MA flag equals the sign predicate of the UNROUNDED distance
(equivalently, of the raw price/mean comparison); on the stored 2-decimal
Distance_From_MA field only one direction survives rounding: a negative
stored distance forces the flag, and an unset flag forces membership in the
"above" (>= 0) chart partition.  The claimed equivalence with the sign of
the stored rounded field is false: a flagged row whose raw distance rounds
to 0 lands in the "above" partition (see the counterexample). -/
theorem c2_amended (t : String) (ln : Option String) (hist : History)
    (P : ℕ) (m : StockMetric)
    (hm : processHistory t ln hist P = Sum.inr (some m))
    (hpos : 0 < trailingMean hist P) :
    (m.Below_MA = true ↔ lastClose hist < trailingMean hist P) ∧
    (m.Below_MA = true ↔
      (lastClose hist - trailingMean hist P) / trailingMean hist P * 100 < 0) ∧
    (m.Distance_From_MA < 0 → m.Below_MA = true) ∧
    (m.Below_MA = false → isAbove m = true) := by
  obtain ⟨h1, h2, hme⟩ := processHistory_inr_some hm
  subst hme
  have hba : (mkMetric t ln hist P).Below_MA =
      decide (lastClose hist < trailingMean hist P) := rfl
  have hdist : (mkMetric t ln hist P).Distance_From_MA =
      round2 ((lastClose hist - trailingMean hist P) / trailingMean hist P * 100) :=
    rfl
  have hiff : lastClose hist < trailingMean hist P ↔
      (lastClose hist - trailingMean hist P) / trailingMean hist P * 100 < 0 := by
    rw [div_mul_eq_mul_div, div_neg_iff]
    constructor
    · intro h
      exact Or.inr ⟨by nlinarith, hpos⟩
    · rintro (⟨hp, hneg⟩ | ⟨hneg, hp⟩)
      · exact absurd hpos (not_lt.mpr (le_of_lt hneg))
      · nlinarith
  refine ⟨?_, ?_, ?_, ?_⟩
  · rw [hba]
    simp
  · rw [hba]
    simpa using hiff
  · intro hlt
    rw [hdist] at hlt
    rw [hba]
    exact decide_eq_true (hiff.mpr (neg_of_round2_neg hlt))
  · intro hfalse
    rw [hba] at hfalse
    have hge : trailingMean hist P ≤ lastClose hist := by
      have := of_decide_eq_false hfalse
      exact not_lt.mp this
    have hraw : 0 ≤ (lastClose hist - trailingMean hist P) /
        trailingMean hist P * 100 :=
      mul_nonneg (div_nonneg (by linarith) hpos.le) (by norm_num)
    show decide (0 ≤ (mkMetric t ln hist P).Distance_From_MA) = true
    rw [hdist]
    exact decide_eq_true (round2_nonneg hraw)

/-- C2, witness: the rising 3-point history gives a row whose flag is
unset, and the flag being unset puts the row in the above partition. -/
theorem c2_witness :
    isAbove (mkMetric tGoodA.ticker tGoodA.longName histW 2) = true :=
  (c2_amended tGoodA.ticker tGoodA.longName histW 2
    (mkMetric tGoodA.ticker tGoodA.longName histW 2)
    (by decide) (by decide)).2.2.2 (by decide)

/-- C2, counterexample: closes 100, 100.001, 99.999 with period 2 give a
row with Below_MA = true (the raw price 99.999 is below the mean 100) but
a stored rounded distance of exactly 0, so the claimed equivalence
IsBelowMA = (DistancePercent < 0) fails on the stored field and the
flagged row satisfies the "above" (>= 0) partition filter. -/
theorem c2_counterexample :
    processHistory "SBIN.NS" none histC2 2 =
      Sum.inr (some (mkMetric "SBIN.NS" none histC2 2)) ∧
    (mkMetric "SBIN.NS" none histC2 2).Below_MA = true ∧
    ¬ (mkMetric "SBIN.NS" none histC2 2).Distance_From_MA < 0 ∧
    (mkMetric "SBIN.NS" none histC2 2).Distance_From_MA = 0 ∧
    isAbove (mkMetric "SBIN.NS" none histC2 2) = true ∧
    [mkMetric "SBIN.NS" none histC2 2].filter isAbove =
      [mkMetric "SBIN.NS" none histC2 2] ∧
    [mkMetric "SBIN.NS" none histC2 2].filter isBelow = [] := by
  decide

/-- C7 (confirmed): for a history longer than the period whose trailing
mean and first close are nonzero, the produced row stores: the last close,
the arithmetic mean of the last P closes, the relative distance of the last
close from that mean times 100, and the relative change from the first
close of the whole fetched window times 100 — each rounded to 2 decimal
places — together with the unrounded last volume. -/
theorem c7 (t : String) (ln : Option String) (hist : History) (P : ℕ)
    (h1 : P < hist.length) (h2 : trailingMean hist P ≠ 0)
    (h3 : firstClose hist ≠ 0) :
    processHistory t ln hist P = Sum.inr (some (mkMetric t ln hist P)) ∧
    (mkMetric t ln hist P).Current_Price = round2 (lastClose hist) ∧
    (mkMetric t ln hist P).MA_200 =
      round2 ((((closes hist).drop (hist.length - P)).sum) / (P : ℚ)) ∧
    (mkMetric t ln hist P).Distance_From_MA =
      round2 ((lastClose hist - trailingMean hist P) / trailingMean hist P * 100) ∧
    (mkMetric t ln hist P).Volume = lastVolume hist ∧
    (mkMetric t ln hist P).Price_Change =
      NpFloat.fin (round2 ((lastClose hist - firstClose hist) / firstClose hist * 100)) := by
  refine ⟨processHistory_of_good h1 h2, rfl, rfl, rfl, rfl, ?_⟩
  show round2Np (priceChangeNp (lastClose hist) (firstClose hist)) = _
  rw [priceChangeNp, if_neg h3]
  rfl

/-- C7, witness: the formulas evaluated on the rising 3-point history with
period 2. -/
theorem c7_witness :
    processHistory "WIPRO.NS" none histW 2 =
      Sum.inr (some (mkMetric "WIPRO.NS" none histW 2)) ∧
    (mkMetric "WIPRO.NS" none histW 2).Current_Price = round2 (lastClose histW) ∧
    (mkMetric "WIPRO.NS" none histW 2).MA_200 =
      round2 ((((closes histW).drop (histW.length - 2)).sum) / (2 : ℚ)) ∧
    (mkMetric "WIPRO.NS" none histW 2).Distance_From_MA =
      round2 ((lastClose histW - trailingMean histW 2) / trailingMean histW 2 * 100) ∧
    (mkMetric "WIPRO.NS" none histW 2).Volume = lastVolume histW ∧
    (mkMetric "WIPRO.NS" none histW 2).Price_Change =
      NpFloat.fin (round2 ((lastClose histW - firstClose histW) / firstClose histW * 100)) :=
  c7 "WIPRO.NS" none histW 2 (by decide) (by decide) (by decide)

/-- C9 (confirmed): the calculator is a pure function of its inputs — two
runs over an unchanged input list (same fetched histories, names and
period) return equal rows, field by field, and equal messages.  In this
pure embedding the statement is definitional: the computation reads no
state other than its arguments. -/
theorem c9 (ts1 ts2 : List TickerInput) (P : ℕ) (h : ts1 = ts2) :
    get_stocks_below_ma ts1 P = get_stocks_below_ma ts2 P := by
  rw [h]

/-- C9, witness: re-running on the same singleton input. -/
theorem c9_witness :
    get_stocks_below_ma [tGoodA] 2 = get_stocks_below_ma [tGoodA] 2 :=
  c9 [tGoodA] [tGoodA] 2 rfl

/-- C10, amended: with sufficient history, a zero trailing mean makes the
distance division (plain Python floats) raise ZeroDivisionError, caught by
the per-symbol handler: no row, an inline error, processing continues —
exactly like a fetch failure.  But a zero FIRST close with a nonzero mean
does NOT raise: that division runs on numpy float64 scalars, which yield a
non-finite value instead, so the row IS appended (with a non-finite
Price_Change_%), contrary to the claim. -/
theorem c10_amended (t : String) (ln : Option String) (hist : History)
    (P : ℕ) (_hp : 1 ≤ P) (hlen : P < hist.length) :
    (trailingMean hist P = 0 →
      processHistory t ln hist P = Sum.inl "float division by zero") ∧
    (trailingMean hist P ≠ 0 → firstClose hist = 0 →
      processHistory t ln hist P = Sum.inr (some (mkMetric t ln hist P)) ∧
      ((mkMetric t ln hist P).Price_Change).isFinite = false) := by
  refine ⟨fun h0 => processHistory_of_zeroMA hlen h0,
    fun h2 h3 => ⟨processHistory_of_good hlen h2, ?_⟩⟩
  show (round2Np (priceChangeNp (lastClose hist) (firstClose hist))).isFinite = false
  rw [priceChangeNp, if_pos h3]
  by_cases hc : 0 < lastClose hist
  · rw [if_pos hc]
    rfl
  · rw [if_neg hc]
    by_cases hc2 : lastClose hist < 0
    · rw [if_pos hc2]
      rfl
    · rw [if_neg hc2]
      rfl

/-- C10, witness: the all-zero history raises and is caught; the
zero-first-close history still yields a row with a non-finite change. -/
theorem c10_witness :
    processHistory "NTPC.NS" none histZeros 2 = Sum.inl "float division by zero" ∧
    (processHistory "ONGC.NS" none histZeroFirst 2 =
      Sum.inr (some (mkMetric "ONGC.NS" none histZeroFirst 2)) ∧
      ((mkMetric "ONGC.NS" none histZeroFirst 2).Price_Change).isFinite = false) :=
  ⟨(c10_amended "NTPC.NS" none histZeros 2 (by decide) (by decide)).1 (by decide),
   (c10_amended "ONGC.NS" none histZeroFirst 2 (by decide) (by decide)).2
     (by decide) (by decide)⟩

/-- C10, counterexample: closes 0, 10, 20 with period 2 — the first close
is zero, the trailing mean is 15, and contrary to the claim the symbol DOES
contribute a row (with Price_Change_% = +infinity) and no error message is
emitted. -/
theorem c10_counterexample :
    firstClose histZeroFirst = 0 ∧
    2 < histZeroFirst.length ∧
    trailingMean histZeroFirst 2 ≠ 0 ∧
    processHistory "COALINDIA.NS" none histZeroFirst 2 =
      Sum.inr (some (mkMetric "COALINDIA.NS" none histZeroFirst 2)) ∧
    (mkMetric "COALINDIA.NS" none histZeroFirst 2).Price_Change = NpFloat.posInf ∧
    errorMessages [⟨"COALINDIA.NS", none, Except.ok histZeroFirst⟩] 2 = [] := by
  decide

/-- C3 (confirmed): the grouper splits the rows into exactly two subsets by
sign of the stored distance (>= 0 above, < 0 below, and the two filters
together are a permutation of the whole result), sorts each subset
ascending by distance, and chunks it preserving that order: every chart
group is non-decreasing in distance, and the last row of each group is at
most the first row of the next group of the same subset. -/
theorem c3 (df : List StockMetric) (k : ℕ) (hk : 1 ≤ k) :
    (aboveSorted df).Perm (df.filter isAbove) ∧
    (belowSorted df).Perm (df.filter isBelow) ∧
    (df.filter isAbove ++ df.filter isBelow).Perm df ∧
    (∀ m ∈ aboveSorted df, 0 ≤ m.Distance_From_MA) ∧
    (∀ m ∈ belowSorted df, m.Distance_From_MA < 0) ∧
    List.Pairwise distRel (aboveSorted df) ∧
    List.Pairwise distRel (belowSorted df) ∧
    (∀ c ∈ aboveGroups df k, List.Chain' distRel c) ∧
    (∀ c ∈ belowGroups df k, List.Chain' distRel c) ∧
    List.Chain' (fun c₁ c₂ => ∀ x ∈ c₁.getLast?, ∀ y ∈ c₂.head?, distRel x y)
      (aboveGroups df k) ∧
    List.Chain' (fun c₁ c₂ => ∀ x ∈ c₁.getLast?, ∀ y ∈ c₂.head?, distRel x y)
      (belowGroups df k) := by
  have hk0 : k ≠ 0 := by omega
  have hpa := aboveSorted_pairwise df
  have hpb := belowSorted_pairwise df
  obtain ⟨hina, hbetweena⟩ := chunks_pairwise_of_pairwise hk0 hpa
  obtain ⟨hinb, hbetweenb⟩ := chunks_pairwise_of_pairwise hk0 hpb
  refine ⟨List.mergeSort_perm _ _, List.mergeSort_perm _ _, ?_, ?_, ?_, hpa, hpb,
    fun c hc => (hina c hc).chain', fun c hc => (hinb c hc).chain', ?_, ?_⟩
  · have h := List.filter_append_perm isAbove df
    have e : df.filter (fun x => !isAbove x) = df.filter isBelow :=
      List.filter_congr (fun x _ => not_isAbove_eq_isBelow x)
    rw [e] at h
    exact h
  · intro m hm
    have hmem := (List.mergeSort_perm (df.filter isAbove) distLe).mem_iff.mp hm
    have := (List.mem_filter.mp hmem).2
    simpa [isAbove] using this
  · intro m hm
    have hmem := (List.mergeSort_perm (df.filter isBelow) distLe).mem_iff.mp hm
    have := (List.mem_filter.mp hmem).2
    simpa [isBelow] using this
  · exact hbetweena.chain'.imp (fun c₁ c₂ hs x hx y hy =>
      hs x (List.mem_of_getLast?_eq_some (Option.mem_def.mp hx))
        y (List.mem_of_mem_head? hy))
  · exact hbetweenb.chain'.imp (fun c₁ c₂ hs x hx y hy =>
      hs x (List.mem_of_getLast?_eq_some (Option.mem_def.mp hx))
        y (List.mem_of_mem_head? hy))

/-- C3, witness: the split and partition permutations on a two-row result. -/
theorem c3_witness :
    (aboveSorted [mAbove, mBelowX]).Perm ([mAbove, mBelowX].filter isAbove) ∧
    ([mAbove, mBelowX].filter isAbove ++ [mAbove, mBelowX].filter isBelow).Perm
      [mAbove, mBelowX] :=
  ⟨(c3 [mAbove, mBelowX] 10 (by omega)).1,
   (c3 [mAbove, mBelowX] 10 (by omega)).2.2.1⟩

/-- C4 (confirmed): for each subset of size S and each configurable chunk
size K, the grouper produces exactly ceil(S/K) = (S + K - 1) / K chunks;
every chunk but the last has exactly K rows, the last has S mod K rows when
S mod K is nonzero (K rows when K divides S), and an empty subset yields no
chunks. -/
theorem c4 (df : List StockMetric) (k : ℕ)
    (hk : k = 10 ∨ k = 15 ∨ k = 20 ∨ k = 25 ∨ k = 30) :
    ((aboveGroups df k).length = ((aboveSorted df).length + k - 1) / k ∧
     (∀ c ∈ (aboveGroups df k).dropLast, c.length = k) ∧
     (∀ c, (aboveGroups df k).getLast? = some c →
        c.length = if (aboveSorted df).length % k = 0 then k
          else (aboveSorted df).length % k) ∧
     (aboveSorted df = [] → aboveGroups df k = [])) ∧
    ((belowGroups df k).length = ((belowSorted df).length + k - 1) / k ∧
     (∀ c ∈ (belowGroups df k).dropLast, c.length = k) ∧
     (∀ c, (belowGroups df k).getLast? = some c →
        c.length = if (belowSorted df).length % k = 0 then k
          else (belowSorted df).length % k) ∧
     (belowSorted df = [] → belowGroups df k = [])) := by
  have hk0 : k ≠ 0 := by rcases hk with rfl | rfl | rfl | rfl | rfl <;> omega
  refine ⟨⟨chunksOf_length _, fun c hc => chunksOf_dropLast_length hk0 hc,
      fun c hc => chunksOf_getLast_length hk0 hc, fun h => ?_⟩,
    ⟨chunksOf_length _, fun c hc => chunksOf_dropLast_length hk0 hc,
      fun c hc => chunksOf_getLast_length hk0 hc, fun h => ?_⟩⟩
  · show chunksOf k (aboveSorted df) = []
    rw [h]
    exact chunksOf_nil k
  · show chunksOf k (belowSorted df) = []
    rw [h]
    exact chunksOf_nil k

/-- C4, witness: chunk counts on a two-row result with K = 10. -/
theorem c4_witness :
    (aboveGroups [mAbove, mBelowX] 10).length =
      ((aboveSorted [mAbove, mBelowX]).length + 10 - 1) / 10 ∧
    (belowGroups [mAbove, mBelowX] 10).length =
      ((belowSorted [mAbove, mBelowX]).length + 10 - 1) / 10 :=
  ⟨(c4 [mAbove, mBelowX] 10 (Or.inl rfl)).1.1,
   (c4 [mAbove, mBelowX] 10 (Or.inl rfl)).2.1⟩

/-- C5 (confirmed): when exactly one symbol's fetch raises and every other
symbol fetches enough history (with a nonzero trailing mean, so its
try-block completes), the exception is caught inside the loop: the run
produces exactly one row per non-failing symbol and exactly one error
message, which names the failed symbol. -/
theorem c5 (pre post : List TickerInput) (bad : TickerInput) (e : String)
    (P : ℕ) (hbad : bad.fetchResult = Except.error e)
    (hgood : ∀ t ∈ pre ++ post, goodInput t P) :
    (resultRows (pre ++ bad :: post) P).length = pre.length + post.length ∧
    errorMessages (pre ++ bad :: post) P = [errorLine bad e] ∧
    errorLine bad e = "Error processing " ++ bad.ticker ++ ": " ++ e := by
  obtain ⟨hr, hm⟩ := rowOf_of_error (P := P) hbad
  have hpre : ∀ t ∈ pre, goodInput t P :=
    fun t ht => hgood t (List.mem_append_left _ ht)
  have hpost : ∀ t ∈ post, goodInput t P :=
    fun t ht => hgood t (List.mem_append_right _ ht)
  obtain ⟨hl1, he1⟩ := resultRows_all_good hpre
  obtain ⟨hl2, he2⟩ := resultRows_all_good hpost
  refine ⟨?_, ?_, rfl⟩
  · unfold resultRows at hl1 hl2 ⊢
    simp only [List.filterMap_append, List.filterMap_cons, hr]
    rw [List.length_append, hl1, hl2]
  · unfold errorMessages at he1 he2 ⊢
    simp only [List.filterMap_append, List.filterMap_cons, hm, he1, he2]
    rfl

/-- C5, witness: two good symbols around one failing fetch — 2 rows out of
3 inputs and a single message naming the failed ticker. -/
theorem c5_witness :
    (resultRows [tGoodA, tBad, tGoodB] 2).length = 2 ∧
    errorMessages [tGoodA, tBad, tGoodB] 2 = [errorLine tBad "connection failed"] := by
  have hg : ∀ t ∈ ([tGoodA] ++ [tGoodB] : List TickerInput), goodInput t 2 := by
    intro t ht
    simp only [List.mem_append, List.mem_singleton] at ht
    rcases ht with rfl | rfl
    · exact ⟨histW, rfl, by decide, by decide⟩
    · exact ⟨histW, rfl, by decide, by decide⟩
  have h := c5 [tGoodA] [tGoodB] tBad "connection failed" 2 rfl hg
  exact ⟨h.1, h.2.1⟩

/-- C6 (confirmed): when every symbol either fails to fetch or is excluded
for insufficient history, the result is empty and `main` takes the
top-level no-data branch: it shows the error message and returns before
rendering any summary count, chart or table. -/
theorem c6 (ts : List TickerInput) (P : ℕ)
    (h : ∀ t ∈ ts, (∃ e, t.fetchResult = Except.error e) ∨
      ∃ hh, t.fetchResult = Except.ok hh ∧ hh.length ≤ P) :
    resultRows ts P = [] ∧
    ∀ k, mainModel ts P k = MainOutcome.noData noDataMessage := by
  have hrows : resultRows ts P = [] := by
    apply List.filterMap_eq_nil_iff.mpr
    intro t ht
    rcases h t ht with ⟨e, he⟩ | ⟨hh, hf, hlen⟩
    · exact (rowOf_of_error he).1
    · exact (rowOf_of_short hf hlen).1
  refine ⟨hrows, fun k => ?_⟩
  simp [mainModel, hrows]

/-- C6, witness: one failing fetch plus one too-short history with period 2
give an empty result and the no-data outcome. -/
theorem c6_witness :
    resultRows [tBad, tShort] 2 = [] ∧
    mainModel [tBad, tShort] 2 10 = MainOutcome.noData noDataMessage := by
  have hg : ∀ t ∈ ([tBad, tShort] : List TickerInput),
      (∃ e, t.fetchResult = Except.error e) ∨
      ∃ hh, t.fetchResult = Except.ok hh ∧ hh.length ≤ 2 := by
    intro t ht
    simp only [List.mem_cons, List.mem_singleton, List.not_mem_nil] at ht
    rcases ht with rfl | rfl | h
    · exact Or.inl ⟨"connection failed", rfl⟩
    · exact Or.inr ⟨histShort, rfl, by decide⟩
    · cases h
  exact ⟨(c6 [tBad, tShort] 2 hg).1, (c6 [tBad, tShort] 2 hg).2 10⟩

set_option maxRecDepth 40000 in
/-- C8, amended: on the spec scenario (210 closes, period 200, last close
100, trailing-200 mean 95) the row stores distance 5.26 and is classified
into the above partition, whose single chart group carries it; but the bar
label is "+5.3%", not "+5.26%": the chart code formats bar labels to ONE
decimal place. -/
theorem c8_amended :
    hist210.length = 210 ∧
    lastClose hist210 = 100 ∧
    trailingMean hist210 200 = 95 ∧
    processHistory "ADANIENT.NS" none hist210 200 = Sum.inr (some m210x) ∧
    m210x.Distance_From_MA = 263 / 50 ∧
    isAbove m210x = true ∧
    aboveSorted [m210x] = [m210x] ∧
    belowSorted [m210x] = [] ∧
    aboveGroups [m210x] 15 = [[m210x]] ∧
    (aboveGroups [m210x] 15).map (List.map aboveLabel) = [["+5.3%"]] := by
  have hfa : [m210x].filter isAbove = [m210x] := by decide
  have hfb : [m210x].filter isBelow = [] := by decide
  have ha : aboveSorted [m210x] = [m210x] := by
    show ([m210x].filter isAbove).mergeSort distLe = [m210x]
    rw [hfa]
    exact List.mergeSort_singleton m210x
  have hb : belowSorted [m210x] = [] := by
    show ([m210x].filter isBelow).mergeSort distLe = []
    rw [hfb]
    exact List.mergeSort_nil
  have hg : aboveGroups [m210x] 15 = [[m210x]] := by
    show chunksOf 15 (aboveSorted [m210x]) = [[m210x]]
    rw [ha]
    decide
  refine ⟨by decide, by decide, by decide, by decide, by decide, by decide,
    ha, hb, hg, ?_⟩
  rw [hg]
  decide

set_option maxRecDepth 40000 in
/-- C8, counterexample: on the very scenario of the claim the distance is
5.26 and the row is classified above, but the chart label rendered for the
bar is "+5.3%" (one decimal place), not the claimed "+5.26%". -/
theorem c8_counterexample :
    hist210.length = 210 ∧
    lastClose hist210 = 100 ∧
    trailingMean hist210 200 = 95 ∧
    m210x.Distance_From_MA = 263 / 50 ∧
    isAbove m210x = true ∧
    aboveLabel m210x = "+5.3%" ∧
    aboveLabel m210x ≠ "+5.26%" := by
  decide
